import Mathlib

/-!
Shallow embedding of the todo-list application (`src/main.rs`) and proofs
about its specification.

The program is a single-window egui application.  Its state is the struct
`TodoApp { items, input, text_size, dark_mode, showing_add_item_input }`
together with the process-global id counter `NEXT_ID : AtomicU32`
(initialised to 1).  We model the pair as a `Session`.  The program is
single threaded, so the atomic counter is modelled as a plain `Nat` field
that is kept below `2^32` exactly as a `u32` is; `fetch_add` wraps, which
is made explicit with `% u32Size`.  Fallible operations (file dialogs,
JSON parsing) are modelled with explicit result values.
-/

/-- Size of the `u32` value space; the id counter `NEXT_ID` is a `u32`. -/
def u32Size : Nat := 4294967296

/-- Model of `struct TodoItem { id: u32, description: String, completed: bool, edit: bool }`.
The `u32` id is a `Nat`; every id actually produced or deserialized is `< u32Size`. -/
structure TodoItem where
  id : Nat
  description : String
  completed : Bool
  edit : Bool
deriving DecidableEq, Repr

/-- Model of `struct TodoApp { items, input, text_size, dark_mode, showing_add_item_input }`. -/
structure TodoApp where
  items : List TodoItem
  input : String
  text_size : Float
  dark_mode : Bool
  showing_add_item_input : Bool

/-- One session of the program: the `TodoApp` state plus the global
`NEXT_ID : AtomicU32` counter (single threaded, so a plain field). -/
structure Session where
  app : TodoApp
  next_id : Nat

/-- Model of `impl Default for TodoApp` (`src/main.rs` lines 29-39). -/
def initialTodoApp : TodoApp :=
  { items := [], input := "", text_size := 14.0, dark_mode := false,
    showing_add_item_input := false }

/-- Fresh session: default `TodoApp` and `NEXT_ID` initialised to 1
(`static NEXT_ID: AtomicU32 = AtomicU32::new(1)`). -/
def initialSession : Session := { app := initialTodoApp, next_id := 1 }

/-- The characters of Rust's `char::is_whitespace` (the Unicode
`White_Space` property), used by `str::trim`. -/
def rustWhitespace : List Char :=
  [' ', '\t', '\n', '\u000B', '\u000C', '\r', '\u0085', '\u00A0', '\u1680',
   '\u2000', '\u2001', '\u2002', '\u2003', '\u2004', '\u2005', '\u2006',
   '\u2007', '\u2008', '\u2009', '\u200A', '\u2028', '\u2029', '\u202F',
   '\u205F', '\u3000']

/-- Rust `char::is_whitespace`. -/
def rustIsWhitespace (c : Char) : Bool := rustWhitespace.contains c

/-- Rust `str::trim`: remove leading and trailing whitespace. -/
def rustTrim (s : String) : String :=
  String.mk (((s.data.dropWhile rustIsWhitespace).reverse.dropWhile rustIsWhitespace).reverse)

/-- Model of the confirm (✔) click handler of the add-item row
(`src/main.rs` lines 190-199): if the trimmed input is non-empty, push a
new item whose id is `NEXT_ID.fetch_add(1, SeqCst)` (which returns the old
counter value and wraps modulo `2^32`), whose description is the trimmed
input and whose `completed`/`edit` flags are `false`; then clear the input
and hide the row.  Otherwise nothing happens. -/
def confirmAddClick (s : Session) : Session :=
  if (rustTrim s.app.input).isEmpty then s
  else
    { app := { s.app with
        items := s.app.items ++
          [{ id := s.next_id, description := rustTrim s.app.input,
             completed := false, edit := false }],
        input := "",
        showing_add_item_input := false },
      next_id := (s.next_id + 1) % u32Size }

/-- Model of typing into the add-item text field
(`ui.text_edit_multiline(&mut self.input)`, line 189). -/
def setInput (s : Session) (t : String) : Session :=
  { s with app := { s.app with input := t } }

/-! ### JSON persistence

`serde_json::to_writer_pretty` / `serde_json::from_reader` are modelled at
the level of JSON documents: a `Json` tree stands for the (pretty-printed)
file contents. -/

/-- JSON documents. -/
inductive Json where
  | null : Json
  | bool (b : Bool) : Json
  | num (n : Int) : Json
  | str (s : String) : Json
  | arr (elems : List Json) : Json
  | obj (fields : List (String × Json)) : Json

/-- Serialization of one `TodoItem` (serde derive: fields in declaration
order `id`, `description`, `completed`, `edit`). -/
def itemToJson (it : TodoItem) : Json :=
  Json.obj [("id", Json.num it.id), ("description", Json.str it.description),
            ("completed", Json.bool it.completed), ("edit", Json.bool it.edit)]

/-- Serialization of the item vector: `serde_json::to_writer_pretty(writer, &self.items)`
writes a JSON array. -/
def itemsToJson (items : List TodoItem) : Json :=
  Json.arr (items.map itemToJson)

/-- First field with the given key, as serde's map access does. -/
def lookupField (fields : List (String × Json)) (k : String) : Option Json :=
  (fields.find? (fun p => p.1 == k)).map (fun p => p.2)

/-- Deserialization of a `u32`: a JSON number in `[0, 2^32)`. -/
def asU32 (j : Json) : Option Nat :=
  match j with
  | Json.num n => if 0 ≤ n ∧ n < (u32Size : Int) then some n.toNat else none
  | _ => none

/-- Deserialization of a JSON string. -/
def asStr (j : Json) : Option String :=
  match j with
  | Json.str s => some s
  | _ => none

/-- Deserialization of a JSON boolean. -/
def asBool (j : Json) : Option Bool :=
  match j with
  | Json.bool b => some b
  | _ => none

/-- Deserialization of one `TodoItem` (serde derive: all four fields must
be present and well typed, otherwise the whole `from_reader` call fails). -/
def jsonToItem (j : Json) : Option TodoItem :=
  match j with
  | Json.obj fields =>
    (lookupField fields "id").bind fun jid =>
    (lookupField fields "description").bind fun jd =>
    (lookupField fields "completed").bind fun jc =>
    (lookupField fields "edit").bind fun je =>
    (asU32 jid).bind fun i =>
    (asStr jd).bind fun d =>
    (asBool jc).bind fun c =>
    (asBool je).bind fun e =>
    some { id := i, description := d, completed := c, edit := e }
  | _ => none

/-- Deserialization of a sequence of items; fails as soon as one element fails. -/
def jsonToItemList (js : List Json) : Option (List TodoItem) :=
  match js with
  | [] => some []
  | j :: rest =>
    (jsonToItem j).bind fun it =>
    (jsonToItemList rest).bind fun its =>
    some (it :: its)

/-- Deserialization of `Vec<TodoItem>`: the document must be a JSON array. -/
def jsonToItems (j : Json) : Option (List TodoItem) :=
  match j with
  | Json.arr js => jsonToItemList js
  | _ => none

/-- Model of `self.items.iter().max_by_key(|item| item.id).map_or(0, |item| item.id)`
(`src/main.rs` line 74): the maximum id, or 0 for an empty list. -/
def maxIdOf (items : List TodoItem) : Nat :=
  match items with
  | [] => 0
  | it :: rest => max it.id (maxIdOf rest)

/-- Outcome of the open-file dialog plus `File::open`: the user can cancel
the dialog, opening can fail, or the file's JSON document is obtained. -/
inductive DialogResult where
  | cancelled : DialogResult
  | openFailure : DialogResult
  | opened (j : Json) : DialogResult

/-- Model of `TodoApp::load_from_file_dialog` (`src/main.rs` lines 62-83).
On a successfully opened and deserialized file the items are replaced and
`NEXT_ID` is stored as `max_id + 1` (a `u32` addition, hence the modulus
for the wrap / overflow case); every failure leaves the state unchanged
(errors are only logged). -/
def load_from_file_dialog (s : Session) (r : DialogResult) : Session :=
  match r with
  | DialogResult.opened j =>
    match jsonToItems j with
    | some items =>
      { app := { s.app with items := items },
        next_id := (maxIdOf items + 1) % u32Size }
    | none => s
  | _ => s

/-- Model of `TodoApp::save_to_file_dialog` (`src/main.rs` lines 42-60):
the document written is the serialized item vector; the app state is not
modified. -/
def save_to_file_dialog (s : Session) : Json :=
  itemsToJson s.app.items

/-! ### Per-frame item operations -/

/-- In-place mutation of the item at one index, as the per-row widgets of
the frame loop do (`for (index, item) in self.items.iter_mut().enumerate()`).
Out-of-range indices (which the UI cannot produce) leave the list unchanged. -/
def modifyItem (items : List TodoItem) (idx : Nat) (f : TodoItem → TodoItem) : List TodoItem :=
  match items[idx]? with
  | some it => items.set idx (f it)
  | none => items

/-- Model of the deferred deletion pass (`src/main.rs` lines 174-177):
`for &index in to_remove.iter().rev() { self.items.remove(index); }` —
the marked indices are processed in reverse (descending) order, each one
removed with `Vec::remove`. -/
def removeMarked (items : List α) (marked : List Nat) : List α :=
  marked.reverse.foldl (fun l i => l.eraseIdx i) items

/-- Modelled from the spec: "removes exactly the items at the marked
indices and no others, and the surviving items keep their relative order".
`keepAux marked k l` keeps exactly those elements of `l` whose position
(counted from `k`) is not marked, in order. -/
def keepAux (marked : List Nat) : Nat → List α → List α
  | _, [] => []
  | k, a :: l => if k ∈ marked then keepAux marked (k + 1) l else a :: keepAux marked (k + 1) l

/-- Modelled from the spec: the items surviving a deletion pass are those
at unmarked positions, in their original relative order. -/
def keepUnmarkedSpec (items : List α) (marked : List Nat) : List α :=
  keepAux marked 0 items

/-- The ids of the currently loaded items. -/
def idsOf (s : Session) : List Nat := s.app.items.map TodoItem.id

/-- The edit flags of the currently loaded items, in display order. -/
def editFlags (s : Session) : List Bool := s.app.items.map TodoItem.edit

/-! ### The application's operations

Each UI event the `update` frame handler reacts to becomes one operation;
the single-threaded render loop executes them in sequence. -/

/-- One user-triggered operation of the application. -/
inductive Op where
  | clickLoad (r : DialogResult) : Op
  | clickSave : Op
  | toggleCompleted (idx : Nat) : Op
  | clickEditButton (idx : Nat) : Op
  | clickItemConfirm (idx : Nat) : Op
  | editDescription (idx : Nat) (t : String) : Op
  | deleteMarked (marked : List Nat) : Op
  | clickPlus : Op
  | setInputText (t : String) : Op
  | clickAddConfirm : Op
  | setDarkMode (b : Bool) : Op
  | setTextSize (v : Float) : Op

/-- One step of the application (`TodoApp::update`, `src/main.rs`
lines 88-204), translating each UI event into its state change.  The
guards mirror widget visibility: the Edit button exists only for an item
not in edit mode, the per-item ✔ button and the editable description
field only for an item in edit mode, and the add-item text field and its
✔ button only while `showing_add_item_input` is set. -/
def step (s : Session) (op : Op) : Session :=
  match op with
  | Op.clickLoad r => load_from_file_dialog s r
  | Op.clickSave => s
  | Op.toggleCompleted idx =>
      { s with app := { s.app with
          items := modifyItem s.app.items idx
            (fun it => { it with completed := !it.completed }) } }
  | Op.clickEditButton idx =>
      { s with app := { s.app with
          items := modifyItem s.app.items idx
            (fun it => if it.edit then it else { it with edit := true }) } }
  | Op.clickItemConfirm idx =>
      { s with app := { s.app with
          items := modifyItem s.app.items idx
            (fun it => if it.edit then { it with edit := false } else it) } }
  | Op.editDescription idx t =>
      { s with app := { s.app with
          items := modifyItem s.app.items idx
            (fun it => if it.edit then { it with description := t } else it) } }
  | Op.deleteMarked marked =>
      { s with app := { s.app with items := removeMarked s.app.items marked } }
  | Op.clickPlus =>
      if s.app.showing_add_item_input then s
      else { s with app := { s.app with showing_add_item_input := true } }
  | Op.setInputText t =>
      if s.app.showing_add_item_input then setInput s t else s
  | Op.clickAddConfirm =>
      if s.app.showing_add_item_input then confirmAddClick s else s
  | Op.setDarkMode b => { s with app := { s.app with dark_mode := b } }
  | Op.setTextSize v => { s with app := { s.app with text_size := v } }

/-! ### Sessions of add and remove operations (claims about id assignment) -/

/-- An operation of an add/remove-only session: `add t` types `t` into the
add-item field and clicks its ✔ button; `remove marked` is a deletion pass. -/
inductive SessionOp where
  | add (t : String) : SessionOp
  | remove (marked : List Nat) : SessionOp

/-- Effect of one add/remove operation on the session state. -/
def applyOp (s : Session) (op : SessionOp) : Session :=
  match op with
  | SessionOp.add t => confirmAddClick (setInput s t)
  | SessionOp.remove marked =>
      { s with app := { s.app with items := removeMarked s.app.items marked } }

/-- Whether an operation is an add whose input survives trimming, i.e. one
that actually creates an item and consumes an id. -/
def isEffectiveAdd (op : SessionOp) : Bool :=
  match op with
  | SessionOp.add t => !(rustTrim t).isEmpty
  | SessionOp.remove _ => false

/-- Number of id-consuming adds in a session. -/
def addCount (ops : List SessionOp) : Nat := ops.countP isEffectiveAdd

/-- The ids assigned by the successive (effective) add operations of a
session run from state `s`, in order of assignment. -/
def assignedIds (s : Session) : List SessionOp → List Nat
  | [] => []
  | op :: rest =>
    if isEffectiveAdd op then s.next_id :: assignedIds (applyOp s op) rest
    else assignedIds (applyOp s op) rest

/-! ### Helper lemmas about the deletion pass -/

/-- Positions at or beyond every mark are all kept. -/
theorem keepAux_of_forall_lt (l : List α) (k : Nat) (marked : List Nat)
    (h : ∀ i ∈ marked, i < k) : keepAux marked k l = l := by
  induction l generalizing k with
  | nil => rfl
  | cons a l ih =>
    have hk : k ∉ marked := fun hmem => Nat.lt_irrefl k (h k hmem)
    simp only [keepAux, if_neg hk]
    exact congrArg (a :: ·) (ih (k + 1) (fun i hi => Nat.lt_trans (h i hi) (Nat.lt_succ_self k)))

/-- Appending one mark `m` that dominates all other marks is the same as
first erasing position `m`. -/
theorem keepAux_append_max (l : List α) (k m : Nat) (ms : List Nat)
    (hms : ∀ i ∈ ms, i < m) (hkm : k ≤ m) :
    keepAux (ms ++ [m]) k l = keepAux ms k (l.eraseIdx (m - k)) := by
  induction l generalizing k with
  | nil => rfl
  | cons a l ih =>
    by_cases hk : k = m
    · subst hk
      have h1 : k ∈ ms ++ [k] := List.mem_append_right ms (List.mem_singleton_self k)
      have hub : ∀ i ∈ ms ++ [k], i < k + 1 := by
        intro i hi
        rcases List.mem_append.mp hi with h | h
        · exact Nat.lt_trans (hms i h) (Nat.lt_succ_self k)
        · rcases List.mem_singleton.mp h with rfl
          exact Nat.lt_succ_self i
      have h2 : k - k = 0 := Nat.sub_self k
      rw [h2]
      simp only [keepAux, if_pos h1, List.eraseIdx]
      rw [keepAux_of_forall_lt l (k + 1) (ms ++ [k]) hub,
          keepAux_of_forall_lt l k ms hms]
    · have hkm' : k < m := Nat.lt_of_le_of_ne hkm hk
      have hmem : (k ∈ ms ++ [m]) ↔ (k ∈ ms) := by
        constructor
        · intro h
          rcases List.mem_append.mp h with h | h
          · exact h
          · exact absurd (List.mem_singleton.mp h) hk
        · intro h
          exact List.mem_append.mpr (Or.inl h)
      have hsub : m - k = (m - (k + 1)) + 1 := by omega
      have herase : (a :: l).eraseIdx (m - k) = a :: l.eraseIdx (m - (k + 1)) := by
        rw [hsub]
        rfl
      rw [herase]
      by_cases hin : k ∈ ms
      · simp only [keepAux, if_pos (hmem.mpr hin), if_pos hin]
        exact ih (k + 1) hkm'
      · simp only [keepAux, if_neg (fun h => hin (hmem.mp h)), if_neg hin]
        exact congrArg (a :: ·) (ih (k + 1) hkm')

/-- Unfolding the deletion pass at its last (largest) mark. -/
theorem removeMarked_append (l : List α) (ms : List Nat) (m : Nat) :
    removeMarked l (ms ++ [m]) = removeMarked (l.eraseIdx m) ms := by
  simp [removeMarked, List.reverse_append]

/-- The deletion pass always yields a sublist of the original items. -/
theorem removeMarked_sublist (l : List α) (marked : List Nat) :
    List.Sublist (removeMarked l marked) l := by
  rw [removeMarked]
  generalize marked.reverse = ms
  induction ms generalizing l with
  | nil => exact List.Sublist.refl l
  | cons i ms ih =>
    exact List.Sublist.trans (ih (l.eraseIdx i)) (List.eraseIdx_sublist l i)

/-- `eraseIdx` commutes with `map`. -/
theorem eraseIdx_map (f : α → β) (l : List α) (i : Nat) :
    (l.map f).eraseIdx i = (l.eraseIdx i).map f := by
  induction l generalizing i with
  | nil => rfl
  | cons a l ih =>
    cases i with
    | zero => rfl
    | succ i => simpa [List.eraseIdx] using ih i

/-- The deletion pass commutes with `map`: survivors are determined purely
by position. -/
theorem removeMarked_map (f : α → β) (l : List α) (marked : List Nat) :
    removeMarked (l.map f) marked = (removeMarked l marked).map f := by
  rw [removeMarked, removeMarked]
  generalize marked.reverse = ms
  induction ms generalizing l with
  | nil => rfl
  | cons i ms ih => simpa [eraseIdx_map] using ih (l.eraseIdx i)

/-- A deletion pass over marks listed in strictly increasing order (as the
frame loop collects them) keeps exactly the unmarked positions, in order. -/
theorem removeMarked_eq_keepUnmarked (marked : List Nat) :
    List.Sorted (· < ·) marked →
    ∀ (items : List α), removeMarked items marked = keepUnmarkedSpec items marked := by
  induction marked using List.reverseRecOn with
  | nil =>
    intro _ items
    rw [keepUnmarkedSpec, keepAux_of_forall_lt items 0 [] (by intro i hi; cases hi)]
    rfl
  | append_singleton ms m ih =>
    intro h items
    have h' := List.pairwise_append.mp h
    have hlt : ∀ i ∈ ms, i < m := by
      intro i hi
      exact h'.2.2 i hi m (List.mem_singleton_self m)
    rw [removeMarked_append, ih h'.1 (items.eraseIdx m), keepUnmarkedSpec, keepUnmarkedSpec]
    have hmax := keepAux_append_max items 0 m ms hlt (Nat.zero_le m)
    rw [Nat.sub_zero] at hmax
    exact hmax.symm

/-- C4: for every item list and every set of marked indices collected
during one frame's iteration (hence listed in strictly increasing order),
the deferred deletion pass removes exactly the items at the marked indices
and no others, and the surviving items keep their relative order, for any
number of marked indices in the pass. -/
theorem C4_deferred_deletion_exact (items : List TodoItem) (marked : List Nat)
    (h : List.Sorted (· < ·) marked) :
    removeMarked items marked = keepUnmarkedSpec items marked :=
  removeMarked_eq_keepUnmarked marked h items

/-- Concrete item list used by several witnesses. -/
def witnessItems : List TodoItem :=
  [{ id := 1, description := "a", completed := false, edit := false },
   { id := 2, description := "b", completed := true, edit := false },
   { id := 3, description := "c", completed := false, edit := true },
   { id := 4, description := "d", completed := false, edit := false }]

/-- Witness for C4 at a concrete frame: marks 0 and 2 on a 4-item list. -/
theorem C4_witness :
    List.Sorted (· < ·) [0, 2] ∧
      removeMarked witnessItems [0, 2] = keepUnmarkedSpec witnessItems [0, 2] :=
  ⟨by decide, C4_deferred_deletion_exact witnessItems [0, 2] (by decide)⟩

/-- C5: confirming the add-item input while the input text trims to empty
is a no-op: the whole state (items, input buffer, visibility flag, id
counter) is unchanged. -/
theorem C5_whitespace_add_noop (s : Session)
    (h : (rustTrim s.app.input).isEmpty = true) :
    confirmAddClick s = s := by
  simp [confirmAddClick, h]

/-- Concrete session with a whitespace-only add input. -/
def whitespaceSession : Session :=
  { app := { initialTodoApp with input := "  \t ", showing_add_item_input := true },
    next_id := 5 }

/-- Witness for C5: a whitespace-only input leaves the state unchanged. -/
theorem C5_witness :
    (rustTrim whitespaceSession.app.input).isEmpty = true ∧
      confirmAddClick whitespaceSession = whitespaceSession :=
  ⟨by decide, C5_whitespace_add_noop whitespaceSession (by decide)⟩

/-- C6: a load that fails (file-open failure, or a JSON document that does
not deserialize) leaves the entire prior state — items and the id
generator — untouched. -/
theorem C6_failed_load_untouched (s : Session) (r : DialogResult)
    (h : r = DialogResult.openFailure ∨
         ∃ j, r = DialogResult.opened j ∧ jsonToItems j = none) :
    load_from_file_dialog s r = s := by
  rcases h with rfl | ⟨j, rfl, hj⟩
  · rfl
  · simp [load_from_file_dialog, hj]

/-- Witness for C6: an open failure and an undeserializable document both
leave the fresh session unchanged. -/
theorem C6_witness :
    load_from_file_dialog initialSession DialogResult.openFailure = initialSession ∧
      load_from_file_dialog initialSession (DialogResult.opened Json.null) = initialSession :=
  ⟨C6_failed_load_untouched initialSession DialogResult.openFailure (Or.inl rfl),
   C6_failed_load_untouched initialSession (DialogResult.opened Json.null)
     (Or.inr ⟨Json.null, rfl, rfl⟩)⟩

/-- C7: a confirmed add with non-empty trimmed text appends exactly one
item at the end of the list, with the trimmed input as description, the
current generator value as id and both flags false; afterwards the input
buffer is cleared, the input row is hidden, and the generator is advanced
by one (modulo `2^32`). -/
theorem C7_confirmed_add (s : Session)
    (h : (rustTrim s.app.input).isEmpty = false) :
    (confirmAddClick s).app.items =
        s.app.items ++
          [{ id := s.next_id, description := rustTrim s.app.input,
             completed := false, edit := false }] ∧
      (confirmAddClick s).app.input = "" ∧
      (confirmAddClick s).app.showing_add_item_input = false ∧
      (confirmAddClick s).next_id = (s.next_id + 1) % u32Size := by
  refine ⟨?_, ?_, ?_, ?_⟩ <;> simp [confirmAddClick, h]

/-- Concrete session with a non-empty add input. -/
def pendingAddSession : Session :=
  { app := { initialTodoApp with input := "  hi  ", showing_add_item_input := true },
    next_id := 7 }

/-- Witness for C7 on a concrete session. -/
theorem C7_witness :
    (rustTrim pendingAddSession.app.input).isEmpty = false ∧
      ((confirmAddClick pendingAddSession).app.items =
          pendingAddSession.app.items ++
            [{ id := pendingAddSession.next_id,
               description := rustTrim pendingAddSession.app.input,
               completed := false, edit := false }] ∧
        (confirmAddClick pendingAddSession).app.input = "" ∧
        (confirmAddClick pendingAddSession).app.showing_add_item_input = false ∧
        (confirmAddClick pendingAddSession).next_id =
          (pendingAddSession.next_id + 1) % u32Size) :=
  ⟨by decide, C7_confirmed_add pendingAddSession (by decide)⟩

/-! ### Round-trip of the JSON persistence -/

/-- An item is valid when its id fits in a `u32` (every item the program
holds does, since ids are produced by the `u32` counter or deserialized
from a `u32` field). -/
def ValidItem (it : TodoItem) : Prop := it.id < u32Size

/-- Items have decidable validity. -/
instance (it : TodoItem) : Decidable (ValidItem it) :=
  inferInstanceAs (Decidable (it.id < u32Size))

/-- Serializing one valid item and deserializing it gives the item back. -/
theorem jsonToItem_itemToJson (it : TodoItem) (h : ValidItem it) :
    jsonToItem (itemToJson it) = some it := by
  have hu : asU32 (Json.num it.id) = some it.id := by
    have hcond : 0 ≤ (it.id : Int) ∧ (it.id : Int) < (u32Size : Int) :=
      ⟨Int.natCast_nonneg it.id, by exact_mod_cast h⟩
    show (if 0 ≤ (it.id : Int) ∧ (it.id : Int) < (u32Size : Int)
          then some ((it.id : Int)).toNat else none) = some it.id
    rw [if_pos hcond, Int.toNat_ofNat]
  have lf1 : lookupField [("id", Json.num it.id),
      ("description", Json.str it.description), ("completed", Json.bool it.completed),
      ("edit", Json.bool it.edit)] "id" = some (Json.num it.id) := rfl
  have lf2 : lookupField [("id", Json.num it.id),
      ("description", Json.str it.description), ("completed", Json.bool it.completed),
      ("edit", Json.bool it.edit)] "description" = some (Json.str it.description) := rfl
  have lf3 : lookupField [("id", Json.num it.id),
      ("description", Json.str it.description), ("completed", Json.bool it.completed),
      ("edit", Json.bool it.edit)] "completed" = some (Json.bool it.completed) := rfl
  have lf4 : lookupField [("id", Json.num it.id),
      ("description", Json.str it.description), ("completed", Json.bool it.completed),
      ("edit", Json.bool it.edit)] "edit" = some (Json.bool it.edit) := rfl
  simp only [itemToJson, jsonToItem]
  rw [lf1, Option.some_bind, lf2, Option.some_bind, lf3, Option.some_bind, lf4,
      Option.some_bind, hu, Option.some_bind]
  rfl

/-- Serializing a list of valid items element-wise and deserializing the
resulting array gives the same list back. -/
theorem jsonToItemList_roundtrip (items : List TodoItem)
    (h : ∀ it ∈ items, ValidItem it) :
    jsonToItemList (items.map itemToJson) = some items := by
  induction items with
  | nil => rfl
  | cons it rest ih =>
    have h1 := jsonToItem_itemToJson it (h it (List.mem_cons_self it rest))
    have h2 := ih (fun x hx => h x (List.mem_cons_of_mem it hx))
    show jsonToItemList (itemToJson it :: rest.map itemToJson) = some (it :: rest)
    simp only [jsonToItemList]
    rw [h1, Option.some_bind, h2, Option.some_bind]

/-- C3: serializing any valid item sequence to the JSON file format and
deserializing the result yields an item sequence element-wise equal to the
original — same length, same order, and at each position the same id,
description, completed flag and edit flag. -/
theorem C3_save_load_roundtrip (items : List TodoItem)
    (h : ∀ it ∈ items, ValidItem it) :
    jsonToItems (itemsToJson items) = some items := by
  show jsonToItemList (items.map itemToJson) = some items
  exact jsonToItemList_roundtrip items h

/-- Witness for C3: the spec's example list survives the round trip. -/
theorem C3_witness :
    (∀ it ∈ [({ id := 1, description := "buy milk", completed := false, edit := false } : TodoItem),
             { id := 2, description := "pay rent", completed := true, edit := false }], ValidItem it) ∧
      jsonToItems (itemsToJson
          [{ id := 1, description := "buy milk", completed := false, edit := false },
           { id := 2, description := "pay rent", completed := true, edit := false }]) =
        some [{ id := 1, description := "buy milk", completed := false, edit := false },
              { id := 2, description := "pay rent", completed := true, edit := false }] :=
  ⟨by decide, C3_save_load_roundtrip _ (by decide)⟩

/-! ### Loading primes the id generator -/

/-- C2 (amended): after a successful load of an item sequence with maximum
id `K` satisfying `K + 1 < 2^32`, the next confirmed add produces an item
with id `K + 1`; for an empty loaded array `K` is 0, so the next id is 1.
(For `K = 2^32 - 1` the `u32` increment wraps, see the counterexample.) -/
theorem C2_load_then_add (s : Session) (j : Json) (items : List TodoItem) (t : String)
    (hj : jsonToItems j = some items)
    (hK : maxIdOf items + 1 < u32Size)
    (ht : (rustTrim t).isEmpty = false) :
    (confirmAddClick (setInput (load_from_file_dialog s
          (DialogResult.opened j)) t)).app.items.getLast?
        = some { id := maxIdOf items + 1, description := rustTrim t,
                 completed := false, edit := false }
    ∧ (items = [] → maxIdOf items + 1 = 1) := by
  constructor
  · have hload : load_from_file_dialog s (DialogResult.opened j) =
        { app := { s.app with items := items },
          next_id := (maxIdOf items + 1) % u32Size } := by
      simp [load_from_file_dialog, hj]
    have hmod : (maxIdOf items + 1) % u32Size = maxIdOf items + 1 := Nat.mod_eq_of_lt hK
    rw [hload]
    simp [setInput, confirmAddClick, ht, hmod, List.getLast?_concat]
  · intro hempty
    subst hempty
    rfl

/-- Witness for C2 on the spec's example (max id 2, generator primed to 3). -/
theorem C2_witness :
    jsonToItems (itemsToJson
        [{ id := 1, description := "buy milk", completed := false, edit := false },
         { id := 2, description := "pay rent", completed := true, edit := false }]) =
      some [{ id := 1, description := "buy milk", completed := false, edit := false },
            { id := 2, description := "pay rent", completed := true, edit := false }] ∧
    maxIdOf [{ id := 1, description := "buy milk", completed := false, edit := false },
             { id := 2, description := "pay rent", completed := true, edit := false }] + 1 < u32Size ∧
    (rustTrim "call mom").isEmpty = false ∧
    (confirmAddClick (setInput (load_from_file_dialog initialSession
          (DialogResult.opened (itemsToJson
            [{ id := 1, description := "buy milk", completed := false, edit := false },
             { id := 2, description := "pay rent", completed := true, edit := false }]))) "call mom")).app.items.getLast?
        = some { id := maxIdOf
                   [{ id := 1, description := "buy milk", completed := false, edit := false },
                    { id := 2, description := "pay rent", completed := true, edit := false }] + 1,
                 description := rustTrim "call mom", completed := false, edit := false } :=
  ⟨by decide, by decide, by decide,
   (C2_load_then_add initialSession _ _ "call mom" (by decide) (by decide) (by decide)).1⟩

/-- A loaded file whose single item already carries the largest `u32` id. -/
def maxedJson : Json :=
  itemsToJson [{ id := u32Size - 1, description := "a", completed := false, edit := false }]

/-- Counterexample to C2 as stated: loading a file whose maximum id is
`K = 2^32 - 1` and then adding produces an item with id 0, not `K + 1` —
the `u32` counter wraps. -/
theorem C2_counterexample :
    ((confirmAddClick (setInput (load_from_file_dialog initialSession
          (DialogResult.opened maxedJson)) "x")).app.items.getLast?).map TodoItem.id
        = some 0 ∧
      ¬ ((confirmAddClick (setInput (load_from_file_dialog initialSession
          (DialogResult.opened maxedJson)) "x")).app.items.getLast?).map TodoItem.id
        = some ((u32Size - 1) + 1) := by
  constructor
  · decide
  · decide

/-! ### Ids assigned across a session -/

/-- The ids assigned from any in-range counter state are the successive
counter values modulo `2^32`, one per effective add; removes and
whitespace-rejected adds consume no id. -/
theorem assignedIds_formula (ops : List SessionOp) :
    ∀ s : Session, s.next_id < u32Size →
    assignedIds s ops =
      (List.range (addCount ops)).map (fun k => (s.next_id + k) % u32Size) := by
  induction ops with
  | nil =>
    intro s _
    simp [assignedIds, addCount]
  | cons op rest ih =>
    intro s hs
    cases op with
    | add t =>
      by_cases hb : (rustTrim t).isEmpty
      · have heff : isEffectiveAdd (SessionOp.add t) = false := by
          simp [isEffectiveAdd, hb]
        have happ : applyOp s (SessionOp.add t) = setInput s t := by
          simp [applyOp, confirmAddClick, setInput, hb]
        have hnext : (setInput s t).next_id = s.next_id := rfl
        simp only [assignedIds, heff, Bool.false_eq_true, if_false, happ]
        rw [ih (setInput s t) (by rw [hnext]; exact hs), hnext]
        simp [addCount, List.countP_cons, heff]
      · have heff : isEffectiveAdd (SessionOp.add t) = true := by
          simp [isEffectiveAdd, hb]
        have happ : (applyOp s (SessionOp.add t)).next_id = (s.next_id + 1) % u32Size := by
          simp [applyOp, confirmAddClick, setInput, hb]
        have hlt : (applyOp s (SessionOp.add t)).next_id < u32Size := by
          rw [happ]
          exact Nat.mod_lt _ (by decide)
        have hcount : addCount (SessionOp.add t :: rest) = addCount rest + 1 := by
          simp [addCount, List.countP_cons, heff]
        simp only [assignedIds, heff, if_true]
        rw [ih (applyOp s (SessionOp.add t)) hlt, happ, hcount,
            List.range_succ_eq_map, List.map_cons, List.map_map]
        congr 1
        · rw [Nat.add_zero, Nat.mod_eq_of_lt hs]
        · refine List.map_congr_left ?_
          intro k _
          show ((s.next_id + 1) % u32Size + k) % u32Size = (s.next_id + (k + 1)) % u32Size
          rw [Nat.mod_add_mod]
          congr 1
          omega
    | remove m =>
      have heff : isEffectiveAdd (SessionOp.remove m) = false := rfl
      have hnext : (applyOp s (SessionOp.remove m)).next_id = s.next_id := rfl
      simp only [assignedIds, heff, Bool.false_eq_true, if_false]
      rw [ih (applyOp s (SessionOp.remove m)) (by rw [hnext]; exact hs), hnext]
      simp [addCount, List.countP_cons, heff]

/-- A session consisting of `n` copies of one effective add consumes
exactly `n` ids. -/
theorem addCount_replicate (n : Nat) (t : String)
    (h : isEffectiveAdd (SessionOp.add t) = true) :
    addCount (List.replicate n (SessionOp.add t)) = n := by
  induction n with
  | zero => simp [addCount]
  | succ n ih =>
    rw [List.replicate_succ]
    simp [addCount, List.countP_cons, h]
    simpa [addCount] using ih

/-- In a fresh session with fewer than `2^32` effective adds, the assigned
ids are strictly increasing along the session. -/
theorem assignedIds_pairwise_lt (ops : List SessionOp)
    (h : addCount ops < u32Size) :
    List.Pairwise (· < ·) (assignedIds initialSession ops) := by
  rw [assignedIds_formula ops initialSession (by decide)]
  have hcong : ∀ k ∈ List.range (addCount ops),
      (initialSession.next_id + k) % u32Size = 1 + k := by
    intro k hk
    have hk' : k < addCount ops := List.mem_range.mp hk
    have hlt : initialSession.next_id + k < u32Size := by
      show 1 + k < u32Size
      omega
    exact Nat.mod_eq_of_lt hlt
  rw [List.map_congr_left hcong]
  refine List.Pairwise.map _ (fun a b hab => ?_) (List.pairwise_lt_range _)
  omega

/-- C1 (amended): for every sequence of add and remove operations in one
session containing fewer than `2^32` id-consuming adds, the ids assigned
by successive adds are strictly increasing — hence no id assigned by an
add is ever assigned by a later add of the session.  (At `2^32` adds the
`u32` counter wraps, see the counterexample.) -/
theorem C1_ids_strictly_increasing (ops : List SessionOp)
    (h : addCount ops < u32Size) :
    List.Pairwise (· < ·) (assignedIds initialSession ops) :=
  assignedIds_pairwise_lt ops h

/-- Witness for C1 on a small session of adds and removes. -/
theorem C1_witness :
    addCount [SessionOp.add "a", SessionOp.remove [0], SessionOp.add "b"] < u32Size ∧
      List.Pairwise (· < ·) (assignedIds initialSession
        [SessionOp.add "a", SessionOp.remove [0], SessionOp.add "b"]) :=
  ⟨by decide, C1_ids_strictly_increasing _ (by decide)⟩

/-- Counterexample to C1 as stated for arbitrary sessions: after `2^32`
adds the assigned ids are no longer strictly increasing — add number
`2^32 - 1` receives id `2^32 - 1` and add number `2^32` receives id 0. -/
theorem C1_counterexample :
    ¬ List.Pairwise (· < ·)
        (assignedIds initialSession (List.replicate u32Size (SessionOp.add "x"))) := by
  intro hp
  have hcount : addCount (List.replicate u32Size (SessionOp.add "x")) = u32Size :=
    addCount_replicate u32Size "x" (by decide)
  rw [assignedIds_formula _ initialSession (by decide), hcount] at hp
  have hp' := List.pairwise_map.mp hp
  have hdec : List.range u32Size =
      (List.range (u32Size - 2) ++ [u32Size - 2]) ++ [u32Size - 1] := by
    have ha : u32Size = (u32Size - 1) + 1 := by decide
    have hb : u32Size - 1 = (u32Size - 2) + 1 := by decide
    calc List.range u32Size
        = List.range ((u32Size - 1) + 1) := by rw [← ha]
      _ = List.range (u32Size - 1) ++ [u32Size - 1] := List.range_succ _
      _ = List.range ((u32Size - 2) + 1) ++ [u32Size - 1] := by rw [← hb]
      _ = (List.range (u32Size - 2) ++ [u32Size - 2]) ++ [u32Size - 1] := by
            rw [List.range_succ]
  rw [hdec, List.append_assoc] at hp'
  have hp2 := List.Pairwise.sublist
    (List.sublist_append_right (List.range (u32Size - 2)) ([u32Size - 2] ++ [u32Size - 1]))
    hp'
  have hlt : (initialSession.next_id + (u32Size - 2)) % u32Size <
      (initialSession.next_id + (u32Size - 1)) % u32Size :=
    (List.pairwise_cons.mp hp2).1 (u32Size - 1) (List.mem_singleton_self _)
  exact absurd hlt (by decide)

/-- Last element of a mapped range. -/
theorem getLast_map_range (f : Nat → Nat) (n : Nat) :
    ((List.range (n + 1)).map f).getLast? = some (f n) := by
  rw [List.range_succ, List.map_append]
  exact List.getLast?_concat _

/-- First element of a mapped range. -/
theorem head_map_range (f : Nat → Nat) (n : Nat) :
    ((List.range (n + 1)).map f).head? = some (f 0) := by
  rw [List.head?_map, List.range_succ_eq_map]
  rfl

/-- C10: id assignment is 32-bit modular arithmetic.  In a fresh session
of identical adds, (a) any number of adds below `2^32` assigns pairwise
distinct ids, (b) the `2^32`-th add receives id 0 — the `u32` counter has
wrapped — and (c) the `2^32 + 1`-st add receives id 1 again, the id the
very first add received: ids repeat once a session reaches `2^32` adds. -/
theorem C10_modular_id_assignment :
    (∀ n, n < u32Size →
      (assignedIds initialSession (List.replicate n (SessionOp.add "x"))).Nodup)
    ∧ (assignedIds initialSession
        (List.replicate u32Size (SessionOp.add "x"))).getLast? = some 0
    ∧ (assignedIds initialSession
        (List.replicate (u32Size + 1) (SessionOp.add "x"))).getLast? = some 1
    ∧ (assignedIds initialSession
        (List.replicate (u32Size + 1) (SessionOp.add "x"))).head? = some 1 := by
  have heff : isEffectiveAdd (SessionOp.add "x") = true := by decide
  refine ⟨?_, ?_, ?_, ?_⟩
  · intro n hn
    have hp := assignedIds_pairwise_lt (List.replicate n (SessionOp.add "x"))
      (by rw [addCount_replicate n "x" heff]; exact hn)
    exact hp.imp Nat.ne_of_lt
  · rw [assignedIds_formula _ initialSession (by decide),
        addCount_replicate u32Size "x" heff]
    show ((List.range ((u32Size - 1) + 1)).map
        (fun k => (initialSession.next_id + k) % u32Size)).getLast? = some 0
    rw [getLast_map_range]
    decide
  · rw [assignedIds_formula _ initialSession (by decide),
        addCount_replicate (u32Size + 1) "x" heff, getLast_map_range]
    decide
  · rw [assignedIds_formula _ initialSession (by decide),
        addCount_replicate (u32Size + 1) "x" heff, head_map_range]
    decide

/-- Witness for C10: three adds in a fresh session assign distinct ids. -/
theorem C10_witness :
    (assignedIds initialSession (List.replicate 3 (SessionOp.add "x"))).Nodup :=
  C10_modular_id_assignment.1 3 (by decide)

/-! ### Uniqueness of ids across reachable states -/

/-- Every id in a list is bounded by `maxIdOf` of that list. -/
theorem le_maxIdOf (items : List TodoItem) :
    ∀ it ∈ items, it.id ≤ maxIdOf items := by
  induction items with
  | nil => intro it hit; cases hit
  | cons a rest ih =>
    intro it hit
    rcases List.mem_cons.mp hit with rfl | hmem
    · exact Nat.le_max_left _ _
    · exact Nat.le_trans (ih it hmem) (Nat.le_max_right _ _)

/-- Setting a position to the value it already holds changes nothing. -/
theorem set_getElem_self (l : List α) (i : Nat) (a : α)
    (h : l[i]? = some a) : l.set i a = l := by
  induction l generalizing i with
  | nil => simp at h
  | cons b l ih =>
    cases i with
    | zero =>
      rw [List.getElem?_cons_zero] at h
      cases h
      rfl
    | succ i =>
      rw [List.getElem?_cons_succ] at h
      show b :: l.set i a = b :: l
      rw [ih i h]

/-- A per-row mutation that preserves an observation `g` of each item
preserves the list of observations. -/
theorem map_modifyItem (g : TodoItem → β) (items : List TodoItem) (idx : Nat)
    (f : TodoItem → TodoItem) (h : ∀ it, g (f it) = g it) :
    (modifyItem items idx f).map g = items.map g := by
  cases hget : items[idx]? with
  | none => simp [modifyItem, hget]
  | some it =>
    simp only [modifyItem, hget]
    rw [List.map_set, h it]
    refine set_getElem_self _ _ _ ?_
    rw [List.getElem?_map, hget]
    rfl

/-- Inductive invariant for id uniqueness: the loaded ids are pairwise
distinct and all below the current counter value. -/
def IdInv (s : Session) : Prop :=
  (idsOf s).Nodup ∧ ∀ i ∈ idsOf s, i < s.next_id

/-- Side conditions under which an operation keeps ids unique: a confirmed
add must not wrap the `u32` counter, and a successfully loaded file must
itself contain pairwise-distinct ids whose maximum leaves room for the
counter reset `max_id + 1`.  All other operations are unrestricted. -/
def Admissible (s : Session) : Op → Prop
  | Op.clickAddConfirm => s.next_id + 1 < u32Size
  | Op.clickLoad (DialogResult.opened j) =>
      ∀ items, jsonToItems j = some items →
        (items.map TodoItem.id).Nodup ∧ maxIdOf items + 1 < u32Size
  | _ => True

/-- States reachable from a fresh session by admissible operations. -/
inductive ReachableA : Session → Prop where
  | init : ReachableA initialSession
  | next {s : Session} {op : Op} :
      ReachableA s → Admissible s op → ReachableA (step s op)

/-- Every admissible operation preserves the id-uniqueness invariant. -/
theorem IdInv_step (s : Session) (op : Op) (hInv : IdInv s) (hAdm : Admissible s op) :
    IdInv (step s op) := by
  cases op with
  | clickLoad r =>
    cases r with
    | cancelled => exact hInv
    | openFailure => exact hInv
    | opened j =>
      cases hj : jsonToItems j with
      | none =>
        have hstep : step s (Op.clickLoad (DialogResult.opened j)) = s := by
          simp [step, load_from_file_dialog, hj]
        rw [hstep]
        exact hInv
      | some items =>
        obtain ⟨hnd, hmax⟩ := hAdm items hj
        have hstep : step s (Op.clickLoad (DialogResult.opened j)) =
            { app := { s.app with items := items },
              next_id := (maxIdOf items + 1) % u32Size } := by
          simp [step, load_from_file_dialog, hj]
        rw [hstep]
        refine ⟨hnd, ?_⟩
        intro i hi
        rcases List.mem_map.mp hi with ⟨it, hit, rfl⟩
        have hle := le_maxIdOf items it hit
        show it.id < (maxIdOf items + 1) % u32Size
        rw [Nat.mod_eq_of_lt hmax]
        omega
  | clickSave => exact hInv
  | toggleCompleted idx =>
    have hids : idsOf (step s (Op.toggleCompleted idx)) = idsOf s :=
      map_modifyItem TodoItem.id s.app.items idx _ (fun it => rfl)
    refine ⟨?_, ?_⟩
    · rw [hids]; exact hInv.1
    · intro i hi
      rw [hids] at hi
      exact hInv.2 i hi
  | clickEditButton idx =>
    have hids : idsOf (step s (Op.clickEditButton idx)) = idsOf s :=
      map_modifyItem TodoItem.id s.app.items idx _
        (fun it => by cases hb : it.edit <;> simp [hb])
    refine ⟨?_, ?_⟩
    · rw [hids]; exact hInv.1
    · intro i hi
      rw [hids] at hi
      exact hInv.2 i hi
  | clickItemConfirm idx =>
    have hids : idsOf (step s (Op.clickItemConfirm idx)) = idsOf s :=
      map_modifyItem TodoItem.id s.app.items idx _
        (fun it => by cases hb : it.edit <;> simp [hb])
    refine ⟨?_, ?_⟩
    · rw [hids]; exact hInv.1
    · intro i hi
      rw [hids] at hi
      exact hInv.2 i hi
  | editDescription idx t =>
    have hids : idsOf (step s (Op.editDescription idx t)) = idsOf s :=
      map_modifyItem TodoItem.id s.app.items idx _
        (fun it => by cases hb : it.edit <;> simp [hb])
    refine ⟨?_, ?_⟩
    · rw [hids]; exact hInv.1
    · intro i hi
      rw [hids] at hi
      exact hInv.2 i hi
  | deleteMarked marked =>
    have hids : idsOf (step s (Op.deleteMarked marked)) =
        removeMarked (idsOf s) marked :=
      (removeMarked_map TodoItem.id s.app.items marked).symm
    have hsub : List.Sublist (removeMarked (idsOf s) marked) (idsOf s) :=
      removeMarked_sublist _ _
    refine ⟨?_, ?_⟩
    · rw [hids]; exact List.Nodup.sublist hsub hInv.1
    · intro i hi
      rw [hids] at hi
      exact hInv.2 i (hsub.subset hi)
  | clickPlus =>
    by_cases hb : s.app.showing_add_item_input
    · have hstep : step s Op.clickPlus = s := by simp [step, hb]
      rw [hstep]; exact hInv
    · have hstep : step s Op.clickPlus =
          { s with app := { s.app with showing_add_item_input := true } } := by
        simp [step, hb]
      rw [hstep]; exact hInv
  | setInputText t =>
    by_cases hb : s.app.showing_add_item_input
    · have hstep : step s (Op.setInputText t) = setInput s t := by simp [step, hb]
      rw [hstep]; exact hInv
    · have hstep : step s (Op.setInputText t) = s := by simp [step, hb]
      rw [hstep]; exact hInv
  | clickAddConfirm =>
    by_cases hshow : s.app.showing_add_item_input
    · by_cases hemp : (rustTrim s.app.input).isEmpty
      · have hstep : step s Op.clickAddConfirm = s := by
          simp [step, hshow, confirmAddClick, hemp]
        rw [hstep]; exact hInv
      · have hstep : step s Op.clickAddConfirm =
            { app := { s.app with
                items := s.app.items ++
                  [{ id := s.next_id, description := rustTrim s.app.input,
                     completed := false, edit := false }],
                input := "",
                showing_add_item_input := false },
              next_id := (s.next_id + 1) % u32Size } := by
          simp [step, hshow, confirmAddClick, hemp]
        have hnotmem : s.next_id ∉ idsOf s :=
          fun hmem => absurd (hInv.2 _ hmem) (Nat.lt_irrefl _)
        have hids : idsOf (step s Op.clickAddConfirm) = idsOf s ++ [s.next_id] := by
          rw [hstep]
          simp [idsOf]
        have hnext : (step s Op.clickAddConfirm).next_id = (s.next_id + 1) % u32Size := by
          rw [hstep]
        have hmod : (s.next_id + 1) % u32Size = s.next_id + 1 := Nat.mod_eq_of_lt hAdm
        refine ⟨?_, ?_⟩
        · rw [hids, List.nodup_append]
          exact ⟨hInv.1, List.nodup_singleton _,
                 List.disjoint_singleton.mpr hnotmem⟩
        · intro i hi
          rw [hids] at hi
          rw [hnext, hmod]
          rcases List.mem_append.mp hi with h | h
          · have := hInv.2 i h
            omega
          · rcases List.mem_singleton.mp h with rfl
            omega
    · have hstep : step s Op.clickAddConfirm = s := by simp [step, hshow]
      rw [hstep]; exact hInv
  | setDarkMode b => exact hInv
  | setTextSize v => exact hInv

/-- Every reachable state satisfies the id-uniqueness invariant. -/
theorem reachable_IdInv {s : Session} (h : ReachableA s) : IdInv s := by
  induction h with
  | init =>
    refine ⟨List.nodup_nil, ?_⟩
    intro i hi
    cases hi
  | next hr hadm ih => exact IdInv_step _ _ ih hadm

/-- C8 (amended): ids are unique among the currently-loaded items in every
state reachable by admissible operations — i.e. provided every
successfully loaded file itself has pairwise-distinct ids with
`max_id + 1 < 2^32`, and no confirmed add occurs with the counter at
`2^32 - 1`.  Without the load restriction the invariant fails, since load
installs a file's items without any duplicate check (see the
counterexample). -/
theorem C8_unique_ids {s : Session} (h : ReachableA s) : (idsOf s).Nodup :=
  (reachable_IdInv h).1

/-- Witness for C8 at the initial state. -/
theorem C8_witness : (idsOf initialSession).Nodup :=
  C8_unique_ids ReachableA.init

/-- A JSON file carrying two items with the same id. -/
def duplicateIdJson : Json :=
  itemsToJson [{ id := 1, description := "a", completed := false, edit := false },
               { id := 1, description := "b", completed := false, edit := false }]

/-- Counterexample to C8 as stated: loading a file with duplicate ids is a
single application operation after which the loaded ids are not unique. -/
theorem C8_counterexample :
    ¬ (idsOf (step initialSession
        (Op.clickLoad (DialogResult.opened duplicateIdJson)))).Nodup := by
  decide

/-! ### The per-item edit-flag state machine -/

/-- C9: for an item at position `idx`, the only transitions of its edit
flag are Viewing → Editing on an Edit click and Editing → Viewing on a
per-item confirm (✔) click — the latter taken unconditionally, with no
validation of the (possibly empty) description.  The opposite clicks are
impossible (the buttons are not rendered) and hence no-ops, and every
other operation of the application — save, completion toggles,
description edits, the add-item affordance, theme/size changes, failed
loads, confirmed adds (which only append a non-editing item) and deletion
passes (which only drop items) — leaves the edit flag of every surviving
item unchanged. -/
theorem C9_edit_transitions (s : Session) (idx : Nat) (it : TodoItem)
    (h : s.app.items[idx]? = some it) :
    ((it.edit = false →
        (step s (Op.clickEditButton idx)).app.items =
          s.app.items.set idx { it with edit := true })
      ∧ (it.edit = true →
          (step s (Op.clickItemConfirm idx)).app.items =
            s.app.items.set idx { it with edit := false })
      ∧ (it.edit = true → step s (Op.clickEditButton idx) = s)
      ∧ (it.edit = false → step s (Op.clickItemConfirm idx) = s))
    ∧ editFlags (step s Op.clickSave) = editFlags s
    ∧ (∀ i, editFlags (step s (Op.toggleCompleted i)) = editFlags s)
    ∧ (∀ i t, editFlags (step s (Op.editDescription i t)) = editFlags s)
    ∧ editFlags (step s Op.clickPlus) = editFlags s
    ∧ (∀ t, editFlags (step s (Op.setInputText t)) = editFlags s)
    ∧ (∀ b, editFlags (step s (Op.setDarkMode b)) = editFlags s)
    ∧ (∀ v, editFlags (step s (Op.setTextSize v)) = editFlags s)
    ∧ editFlags (step s (Op.clickLoad DialogResult.cancelled)) = editFlags s
    ∧ editFlags (step s (Op.clickLoad DialogResult.openFailure)) = editFlags s
    ∧ (∀ j, jsonToItems j = none →
        editFlags (step s (Op.clickLoad (DialogResult.opened j))) = editFlags s)
    ∧ (editFlags (step s Op.clickAddConfirm) = editFlags s ∨
        editFlags (step s Op.clickAddConfirm) = editFlags s ++ [false])
    ∧ (∀ marked, editFlags (step s (Op.deleteMarked marked)) =
        removeMarked (editFlags s) marked) := by
  refine ⟨⟨?_, ?_, ?_, ?_⟩, rfl, ?_, ?_, ?_, ?_, ?_, ?_, rfl, rfl, ?_, ?_, ?_⟩
  · intro hedit
    simp [step, modifyItem, h, hedit]
  · intro hedit
    simp [step, modifyItem, h, hedit]
  · intro hedit
    have hset : s.app.items.set idx it = s.app.items := set_getElem_self _ _ _ h
    show { s with app := { s.app with
        items := modifyItem s.app.items idx
          (fun x => if x.edit then x else { x with edit := true }) } } = s
    simp [modifyItem, h, hedit, hset]
  · intro hedit
    have hset : s.app.items.set idx it = s.app.items := set_getElem_self _ _ _ h
    show { s with app := { s.app with
        items := modifyItem s.app.items idx
          (fun x => if x.edit then { x with edit := false } else x) } } = s
    simp [modifyItem, h, hedit, hset]
  · intro i
    exact map_modifyItem TodoItem.edit s.app.items i _ (fun x => rfl)
  · intro i t
    exact map_modifyItem TodoItem.edit s.app.items i _
      (fun x => by cases hb : x.edit <;> simp [hb])
  · by_cases hb : s.app.showing_add_item_input <;> simp [step, editFlags, hb]
  · intro t
    by_cases hb : s.app.showing_add_item_input <;> simp [step, setInput, editFlags, hb]
  · intro b
    rfl
  · intro v
    rfl
  · intro j hj
    simp [step, load_from_file_dialog, hj, editFlags]
  · by_cases hshow : s.app.showing_add_item_input
    · by_cases hemp : (rustTrim s.app.input).isEmpty
      · left
        simp [step, confirmAddClick, hshow, hemp, editFlags]
      · right
        simp [step, confirmAddClick, hshow, hemp, editFlags]
    · left
      simp [step, hshow]
  · intro marked
    exact (removeMarked_map TodoItem.edit s.app.items marked).symm

/-- An item currently in edit mode, with an empty description. -/
def editItem : TodoItem :=
  { id := 1, description := "", completed := false, edit := true }

/-- A session holding only `editItem`. -/
def editSession : Session :=
  { app := { initialTodoApp with items := [editItem] }, next_id := 2 }

/-- Witness for C9: the per-item confirm click puts the item back into
Viewing even though its description is empty. -/
theorem C9_witness :
    editSession.app.items[0]? = some editItem ∧
      (step editSession (Op.clickItemConfirm 0)).app.items =
        editSession.app.items.set 0 { editItem with edit := false } :=
  ⟨by decide,
   ((C9_edit_transitions editSession 0 editItem (by decide)).1.2.1) (by decide)⟩
